import Mathlib

/-!
Shallow embedding of the row-transformation and filtering core of the
data-api service (source: src/index.js, functions filterData and
transformData), together with spec-side reference definitions used for
refinement statements.

Modelling conventions:
- A JavaScript cell value is either absent (undefined), a string, or a
  number.  This is the JVal type below.
- A row is a total map from column name to JVal; an absent column maps
  to JVal.undef, exactly as property access on a missing key yields
  undefined in JavaScript.
- A query-parameter object is a list of key/value pairs with string
  values; iterating the pairs models Object.keys iteration (object keys
  are distinct, and the callback looks the value up by key).
- String.prototype.split with a non-empty separator is embedded as the
  structural function jsSplit below, operating on the character list of
  the string, so that all definitions evaluate inside the kernel.
- Code that can throw a TypeError (calling .replace or .split on a
  truthy non-string value) is embedded in the Option monad; none is the
  exception.
-/

namespace DataApi

/-- JVal models a JavaScript cell value as produced by the spreadsheet
loader: absent (undefined), a string, or a number. -/
inductive JVal where
  | undef : JVal
  | str : String → JVal
  | num : Int → JVal
deriving DecidableEq, Repr

abbrev Row := String → JVal

abbrev QueryParams := List (String × String)

/-- Builds a row from an association list; missing keys are undefined. -/
def mkRow (cells : List (String × JVal)) : Row :=
  fun k => (((cells.find? (fun p => p.1 = k)).map Prod.snd).getD JVal.undef)

/-- Tests whether the first character list occurs at the head of the second. -/
def startsWithSeq : List Char → List Char → Bool
  | [], _ => true
  | _ :: _, [] => false
  | a :: as, b :: bs => a == b && startsWithSeq as bs

/-- Worker for jsSplit: left-to-right scan with explicit fuel so the
recursion is structural; the fuel is set to the length of the input plus
one, which the scan can never exhaust. -/
def splitSeq (sep : List Char) : Nat → List Char → List Char → List (List Char)
  | _, [], acc => [acc.reverse]
  | 0, _ :: _, acc => [acc.reverse]
  | fuel + 1, c :: rest, acc =>
    if startsWithSeq sep (c :: rest) then
      acc.reverse :: splitSeq sep fuel ((c :: rest).drop sep.length) []
    else
      splitSeq sep fuel rest (c :: acc)

/-- Embedding of JavaScript String.prototype.split with a non-empty
string separator: scan left to right, cutting at each occurrence of the
separator. -/
def jsSplit (s sep : String) : List String :=
  (splitSeq sep.data (s.data.length + 1) s.data []).map String.mk

/-- JavaScript truthiness of a cell value: undefined is falsy, a string
is truthy iff non-empty, a number is truthy iff non-zero. -/
def jTruthy : JVal → Bool
  | JVal.undef => false
  | JVal.str s => s != ""
  | JVal.num n => n != 0

/-- Embedding of the strict equality test row[field] === value used by
filterData, where value is always a string (a query-parameter fragment):
it holds iff the cell is a string with the same contents. -/
def jsStrictEq : JVal → String → Bool
  | JVal.str s, v => s == v
  | _, _ => false

/-- Per-key test of the filterData callback.  For a key other than
"tab" the code splits the constraint value on "," and requires the cell
to be strictly equal to some fragment.  For the key "tab" the callback
body falls through and returns undefined, which is falsy under the
semantics of Array.prototype.every, so the embedded result is false. -/
def fieldTest (row : Row) (field : String) (value : String) : Bool :=
  if field != "tab" then
    (jsSplit value ",").any (fun v => jsStrictEq (row field) v)
  else
    false

/-- Embedding of filterData from src/index.js: keep the rows for which
the callback holds for every query-parameter key. -/
def filterData (data : List Row) (queryParams : QueryParams) : List Row :=
  data.filter (fun row => queryParams.all (fun p => fieldTest row p.1 p.2))

/-- Embedding of the composite-field block of transformData: when the
cell row["Primary Opp"] is truthy the code evaluates
(cell || "").replace(/^Ext\. at /, "").split(" - ").  On a truthy
non-string the .replace call raises a TypeError, embedded as none.  On
a string the anchored replace strips one leading occurrence of
"Ext. at ", and when the split has at least two segments they become
the client and project values; otherwise both stay empty. -/
def compositeSplit (v : JVal) : Option (String × String) :=
  if jTruthy v then
    match v with
    | JVal.str s =>
      let rest :=
        if startsWithSeq "Ext. at ".data s.data then
          String.mk (s.data.drop "Ext. at ".data.length)
        else s
      let segments := jsSplit rest " - "
      if 2 ≤ segments.length then
        some (segments.getD 0 "", segments.getD 1 "")
      else
        some ("", "")
    | _ => none
  else
    some ("", "")

/-- Embedding of the name-rewriting block of transformData: when the
cell is truthy the code evaluates (cell || "").split(", ") — a TypeError
(none) on a truthy non-string — destructures the result into lastName
and firstName, and replaces the cell with firstName + " " + lastName
when firstName is truthy and with "" otherwise.  A falsy cell is left
unchanged. -/
def nameSwap (v : JVal) : Option JVal :=
  if jTruthy v then
    match v with
    | JVal.str s =>
      let parts := jsSplit s ", "
      let lastName := parts.getD 0 ""
      let firstName := parts.getD 1 ""
      some (JVal.str (if firstName != "" then firstName ++ " " ++ lastName else ""))
    | _ => none
  else
    some v

/-- Embedding of the per-row body of transformData from src/index.js:
derive client and project from "Primary Opp", rewrite "Name" and
"Primary Owner" in place, and return the spread
row with "Client" and "Project" written last, so they win over any
pre-existing cells with those names. -/
def transformRow (row : Row) : Option Row :=
  (compositeSplit (row "Primary Opp")).bind fun cp =>
  (nameSwap (row "Name")).bind fun nameV =>
  (nameSwap (row "Primary Owner")).bind fun ownerV =>
  some (fun k =>
    if k = "Client" then JVal.str cp.1
    else if k = "Project" then JVal.str cp.2
    else if k = "Name" then nameV
    else if k = "Primary Owner" then ownerV
    else row k)

/-- Embedding of Array.prototype.map with a callback that may throw:
the first exception aborts the whole call. -/
def mapJs (f : Row → Option Row) : List Row → Option (List Row)
  | [] => some []
  | r :: rs =>
    (f r).bind fun r2 =>
    (mapJs f rs).bind fun rs2 =>
    some (r2 :: rs2)

/-- Embedding of transformData from src/index.js. -/
def transformData (spreadsheetData : List Row) : Option (List Row) :=
  mapJs transformRow spreadsheetData

/-- Reference predicate written from the words of the specification
(section 4.2): a row passes one constraint key iff its cell at that
column is strictly equal to some member of the accepted-value list
obtained by splitting the constraint value on ",". -/
def specPass (row : Row) (p : String × String) : Bool :=
  (jsSplit p.2 ",").any (fun v => jsStrictEq (row p.1) v)

/-- Reference filter written from the words of the specification
(section 4.2): keep exactly the rows that pass every constraint key. -/
def specFilter (rows : List Row) (constraints : QueryParams) : List Row :=
  rows.filter (fun row => constraints.all (specPass row))

/-- Reference derivation written from the words of the specification
(section 4.1 step 1): strip an optional leading "Ext. at ", split on
" - ", and when at least two segments result take segment 0 as the
client and segment 1 as the project; otherwise both are empty. -/
def specDerive (s : String) : String × String :=
  let rest :=
    if startsWithSeq "Ext. at ".data s.data then
      String.mk (s.data.drop "Ext. at ".data.length)
    else s
  let segments := jsSplit rest " - "
  if 2 ≤ segments.length then
    (segments.getD 0 "", segments.getD 1 "")
  else
    ("", "")

/-- Reference name rewrite: split on ", "; when segment 1 exists and is
non-empty the result is segment 1, a space, and segment 0; otherwise
the result is the empty string. -/
def specNameSwap (s : String) : String :=
  let parts := jsSplit s ", "
  if parts.getD 1 "" != "" then
    parts.getD 1 "" ++ " " ++ parts.getD 0 ""
  else
    ""

/-- String contents of a cell, with the empty string for a value that
is not a string. -/
def cellStr : JVal → String
  | JVal.str s => s
  | _ => ""

/-- A cell value on which the string methods used by transformData are
safe: anything except a truthy (non-zero) number.  A truthy non-string
makes .replace or .split raise a TypeError. -/
def safeCell : JVal → Bool
  | JVal.num n => n == 0
  | _ => true

/-- Row used in filter examples: Region East, Status Active. -/
def rEast : Row := mkRow [("Region", JVal.str "East"), ("Status", JVal.str "Active")]

/-- Row used in filter examples: Region West, Status Active. -/
def rWest : Row := mkRow [("Region", JVal.str "West"), ("Status", JVal.str "Active")]

/-- On a string cell the composite block never throws and computes
exactly the reference derivation. -/
theorem compositeSplit_str (s : String) :
    compositeSplit (JVal.str s) = some (specDerive s) := by
  by_cases hs : s = ""
  · subst hs; decide
  · have hb : (s != "") = true := bne_iff_ne.mpr hs
    simp only [compositeSplit, specDerive, jTruthy, hb, if_true]
    rw [apply_ite some]

/-- Whenever the composite block returns, its result is the reference
derivation applied to the string contents of the cell. -/
theorem compositeSplit_some (v : JVal) (cp : String × String)
    (h : compositeSplit v = some cp) : cp = specDerive (cellStr v) := by
  cases v with
  | undef =>
    rw [← Option.some.inj h]
    decide
  | str s =>
    rw [compositeSplit_str] at h
    exact (Option.some.inj h).symm
  | num n =>
    by_cases hn : n = 0
    · subst hn
      rw [← Option.some.inj h]
      decide
    · exfalso
      have hb : ((n : Int) != 0) = true := bne_iff_ne.mpr hn
      have hnone : compositeSplit (JVal.num n) = none := by
        simp [compositeSplit, jTruthy, hb]
      rw [hnone] at h
      exact Option.noConfusion h

/-- On a non-empty string cell the name block never throws and computes
exactly the reference rewrite. -/
theorem nameSwap_str (s : String) (hs : s ≠ "") :
    nameSwap (JVal.str s) = some (JVal.str (specNameSwap s)) := by
  have hb : (s != "") = true := bne_iff_ne.mpr hs
  simp [nameSwap, specNameSwap, jTruthy, hb]

/-- The composite block returns on every safe cell. -/
theorem compositeSplit_isSome (v : JVal) (h : safeCell v = true) :
    ∃ cp, compositeSplit v = some cp := by
  cases v with
  | undef => exact ⟨("", ""), rfl⟩
  | str s => exact ⟨specDerive s, compositeSplit_str s⟩
  | num n =>
    have hn : n = 0 := by simpa [safeCell] using h
    subst hn
    exact ⟨("", ""), rfl⟩

/-- The name block returns on every safe cell. -/
theorem nameSwap_isSome (v : JVal) (h : safeCell v = true) :
    ∃ w, nameSwap v = some w := by
  cases v with
  | undef => exact ⟨JVal.undef, rfl⟩
  | str s =>
    by_cases hs : s = ""
    · subst hs; exact ⟨JVal.str "", rfl⟩
    · exact ⟨JVal.str (specNameSwap s), nameSwap_str s hs⟩
  | num n =>
    have hn : n = 0 := by simpa [safeCell] using h
    subst hn
    exact ⟨JVal.num 0, rfl⟩

/-- Destructuring of a successful transformRow call into the results of
its three fallible blocks and the final spread row. -/
theorem transformRow_some (row : Row) (out : Row)
    (h : transformRow row = some out) :
    ∃ cp nameV ownerV,
      compositeSplit (row "Primary Opp") = some cp ∧
      nameSwap (row "Name") = some nameV ∧
      nameSwap (row "Primary Owner") = some ownerV ∧
      out = fun k =>
        if k = "Client" then JVal.str cp.1
        else if k = "Project" then JVal.str cp.2
        else if k = "Name" then nameV
        else if k = "Primary Owner" then ownerV
        else row k := by
  unfold transformRow at h
  rcases Option.bind_eq_some.mp h with ⟨cp, hcp, h2⟩
  rcases Option.bind_eq_some.mp h2 with ⟨nameV, hnv, h3⟩
  rcases Option.bind_eq_some.mp h3 with ⟨ownerV, hov, h4⟩
  exact ⟨cp, nameV, ownerV, hcp, hnv, hov, (Option.some.inj h4).symm⟩

/-- Pointwise agreement of the filterData callback with the reference
predicate on constraint lists that avoid the reserved key. -/
theorem all_fieldTest_eq_specPass (row : Row) (qp : QueryParams)
    (h : "tab" ∉ qp.map Prod.fst) :
    (qp.all fun p => fieldTest row p.1 p.2) = qp.all (specPass row) := by
  induction qp with
  | nil => rfl
  | cons p qp ih =>
    simp only [List.map_cons, List.mem_cons] at h
    push_neg at h
    obtain ⟨h1, h2⟩ := h
    have hb : (p.1 != "tab") = true := bne_iff_ne.mpr (Ne.symm h1)
    have hf : fieldTest row p.1 p.2 = specPass row p := by
      simp [fieldTest, specPass, hb]
    simp [List.all_cons, hf, ih h2]

/-- Claim C1, counterexample: with the reserved key "tab" present in
the constraints, filterData excludes a row that filtering by the
remaining (here: no) constraint keys keeps, because the per-row
callback returns undefined (falsy) on the "tab" key and every therefore
fails; the key is not treated as vacuously true. -/
theorem C1_counterexample :
    filterData [mkRow []] [("tab", "Sheet1")] = [] ∧
    filterData [mkRow []] [] = [mkRow []] :=
  ⟨rfl, rfl⟩

/-- Claim C1, amended: whenever the constraint mapping contains the
reserved key "tab", filterData returns the empty row sequence — the
undefined result of the callback on that key is falsy under the
semantics of every, so each row fails the conjunction. -/
theorem C1_tab_excludes_all (rows : List Row) (qp : QueryParams) (v : String)
    (h : ("tab", v) ∈ qp) : filterData rows qp = [] := by
  induction rows with
  | nil => rfl
  | cons r rs ih =>
    have hall : (qp.all fun p => fieldTest r p.1 p.2) = false := by
      cases hb : qp.all fun p => fieldTest r p.1 p.2 with
      | false => rfl
      | true =>
        have h2 := List.all_eq_true.mp hb ("tab", v) h
        simp [fieldTest] at h2
    show List.filter _ (r :: rs) = []
    rw [List.filter_cons]
    simp only [hall, Bool.false_eq_true, if_false]
    exact ih

/-- Claim C1, witness: a row that matches the only other constraint is
still excluded once "tab" appears among the constraint keys. -/
theorem C1_witness :
    filterData [mkRow [("Region", JVal.str "East")]]
      [("tab", "Sheet1"), ("Region", "East")] = [] :=
  C1_tab_excludes_all _ _ "Sheet1" (List.Mem.head _)

/-- Claim C2, counterexample: a row whose "Primary Opp" cell is the
number 1 — a permitted cell value per the data model — makes
transformData raise a TypeError (embedded as none), because .replace is
called on a non-string, so transformData is not total over row
sequences with number cells. -/
theorem C2_counterexample :
    transformData [mkRow [("Primary Opp", JVal.num 1)]] = none :=
  rfl

/-- Claim C2, amended: transformData returns a result on every row
sequence in which the cells of "Primary Opp", "Name" and
"Primary Owner" are strings, absent or zero (safe cells); only a truthy
non-string cell in one of those three fields can raise.  filterData is
total by construction in this embedding. -/
theorem C2_total_on_safe (rows : List Row)
    (h : ∀ row ∈ rows,
      safeCell (row "Primary Opp") = true ∧
      safeCell (row "Name") = true ∧
      safeCell (row "Primary Owner") = true) :
    ∃ out, transformData rows = some out := by
  induction rows with
  | nil => exact ⟨[], rfl⟩
  | cons r rs ih =>
    obtain ⟨h1, h2, h3⟩ := h r (List.Mem.head _)
    obtain ⟨cp, hcp⟩ := compositeSplit_isSome _ h1
    obtain ⟨nv, hnv⟩ := nameSwap_isSome _ h2
    obtain ⟨ov, hov⟩ := nameSwap_isSome _ h3
    obtain ⟨out, hout⟩ := ih (fun row hr => h row (List.Mem.tail _ hr))
    have hr : transformRow r = some (fun k =>
        if k = "Client" then JVal.str cp.1
        else if k = "Project" then JVal.str cp.2
        else if k = "Name" then nv
        else if k = "Primary Owner" then ov
        else r k) := by
      unfold transformRow
      exact Option.bind_eq_some.mpr ⟨cp, hcp,
        Option.bind_eq_some.mpr ⟨nv, hnv,
          Option.bind_eq_some.mpr ⟨ov, hov, rfl⟩⟩⟩
    refine ⟨(fun k =>
        if k = "Client" then JVal.str cp.1
        else if k = "Project" then JVal.str cp.2
        else if k = "Name" then nv
        else if k = "Primary Owner" then ov
        else r k) :: out, ?_⟩
    show mapJs transformRow (r :: rs) = _
    exact Option.bind_eq_some.mpr ⟨_, hr,
      Option.bind_eq_some.mpr ⟨out, hout, rfl⟩⟩

/-- Claim C2, witness: a row sequence with string and absent cells is
transformed without an exception. -/
theorem C2_witness :
    ∃ out, transformData
      [mkRow [("Primary Opp", JVal.str "Ext. at Acme - Widget"),
              ("Name", JVal.str "Doe, Jane")],
       mkRow []] = some out :=
  C2_total_on_safe _ (by decide)

/-- Claim C3: on a constraint mapping without the reserved key "tab",
filterData keeps exactly the rows that pass every constraint key, a row
passing a key iff its cell at that column is strictly equal to some
member of the comma-split accepted-value list — that is, filterData
agrees with the reference filter written from the specification. -/
theorem C3_filter_refines_spec (rows : List Row) (qp : QueryParams)
    (h : "tab" ∉ qp.map Prod.fst) :
    filterData rows qp = specFilter rows qp := by
  unfold filterData specFilter
  induction rows with
  | nil => rfl
  | cons r rs ih =>
    rw [List.filter_cons, List.filter_cons]
    have he := all_fieldTest_eq_specPass r qp h
    simp only [he, ih]

/-- Claim C3, witness: the multi-value example of the specification,
with no reserved key among the constraints. -/
theorem C3_witness :
    filterData [rEast, rWest] [("Region", "East,West"), ("Status", "Active")]
      = specFilter [rEast, rWest] [("Region", "East,West"), ("Status", "Active")] ∧
    filterData [rEast, rWest] [("Region", "East,West"), ("Status", "Active")]
      = [rEast, rWest] ∧
    filterData [rEast, rWest] [("Region", "East"), ("Status", "Active")]
      = [rEast] :=
  ⟨C3_filter_refines_spec _ _ (by decide), rfl, rfl⟩

/-- Claim C4: when the "Primary Opp" cell is a string (or absent, read
as the empty string) and the row transforms without an exception, the
output cells "Client" and "Project" are exactly the reference
derivation — strip an optional leading "Ext. at ", split on " - ", take
segments 0 and 1 when at least two exist, and empty strings otherwise,
with the missing and empty cases yielding empty strings. -/
theorem C4_composite_derivation (row : Row) (s : String) (out : Row)
    (hs : row "Primary Opp" = JVal.str s ∨
      (row "Primary Opp" = JVal.undef ∧ s = ""))
    (hout : transformRow row = some out) :
    out "Client" = JVal.str (specDerive s).1 ∧
    out "Project" = JVal.str (specDerive s).2 := by
  obtain ⟨cp, nv, ov, hcp, hnv, hov, hfun⟩ := transformRow_some row out hout
  have hcps : cp = specDerive s := by
    rcases hs with hstr | ⟨hund, hse⟩
    · rw [hstr, compositeSplit_str] at hcp
      exact (Option.some.inj hcp).symm
    · subst hse
      rw [hund] at hcp
      rw [← Option.some.inj hcp]
      decide
  subst hfun
  subst hcps
  constructor
  · simp
  · simp

/-- Claim C4, witness: the happy-path example of the specification. -/
theorem C4_witness :
    ∃ out, transformRow (mkRow [("Primary Opp", JVal.str "Ext. at Acme - Widget")])
        = some out ∧
      out "Client" = JVal.str "Acme" ∧ out "Project" = JVal.str "Widget" := by
  obtain ⟨out, hout⟩ :
      ∃ out, transformRow (mkRow [("Primary Opp", JVal.str "Ext. at Acme - Widget")])
        = some out := ⟨_, rfl⟩
  have h := C4_composite_derivation _ "Ext. at Acme - Widget" out (Or.inl rfl) hout
  exact ⟨out, hout, h.1.trans (by decide), h.2.trans (by decide)⟩

/-- Claim C5, counterexample: on the cell "Doe, " the delimiter ", " is
present, so a right-hand segment (the empty string) exists and the
claim predicts the value "" ++ " " ++ "Doe"; the code instead tests the
truthiness of the right-hand segment and produces the empty string. -/
theorem C5_counterexample :
    (transformRow (mkRow [("Name", JVal.str "Doe, ")])).map (fun o => o "Name")
      = some (JVal.str "") ∧
    JVal.str "" ≠ JVal.str ("" ++ " " ++ "Doe") :=
  ⟨rfl, by decide⟩

/-- Claim C5, amended: for each of the name fields "Name" and
"Primary Owner" holding a non-empty string, the output value is the
reference rewrite — segment 1 ++ " " ++ segment 0 of the split on ", "
when segment 1 exists and is non-empty, and the empty string when the
delimiter is absent or the right-hand segment is empty; an absent name
field stays absent. -/
theorem C5_name_swap (row : Row) (out : Row)
    (hout : transformRow row = some out) :
    (∀ s : String, s ≠ "" → row "Name" = JVal.str s →
      out "Name" = JVal.str (specNameSwap s)) ∧
    (row "Name" = JVal.undef → out "Name" = JVal.undef) ∧
    (∀ s : String, s ≠ "" → row "Primary Owner" = JVal.str s →
      out "Primary Owner" = JVal.str (specNameSwap s)) ∧
    (row "Primary Owner" = JVal.undef → out "Primary Owner" = JVal.undef) := by
  obtain ⟨cp, nv, ov, hcp, hnv, hov, hfun⟩ := transformRow_some row out hout
  subst hfun
  refine ⟨?_, ?_, ?_, ?_⟩
  · intro s hs hrow
    rw [hrow, nameSwap_str s hs] at hnv
    have hv : nv = JVal.str (specNameSwap s) := (Option.some.inj hnv).symm
    simp [hv]
  · intro hrow
    rw [hrow] at hnv
    have hv : nv = JVal.undef := (Option.some.inj hnv).symm
    simp [hv]
  · intro s hs hrow
    rw [hrow, nameSwap_str s hs] at hov
    have hv : ov = JVal.str (specNameSwap s) := (Option.some.inj hov).symm
    simp [hv]
  · intro hrow
    rw [hrow] at hov
    have hv : ov = JVal.undef := (Option.some.inj hov).symm
    simp [hv]

/-- Claim C5, witness: the name-reformat example of the specification,
with the other name field absent and staying absent. -/
theorem C5_witness :
    ∃ out, transformRow (mkRow [("Name", JVal.str "Doe, Jane")]) = some out ∧
      out "Name" = JVal.str "Jane Doe" ∧ out "Primary Owner" = JVal.undef := by
  obtain ⟨out, hout⟩ :
      ∃ out, transformRow (mkRow [("Name", JVal.str "Doe, Jane")]) = some out :=
    ⟨_, rfl⟩
  have h := C5_name_swap _ out hout
  exact ⟨out, hout, (h.1 "Doe, Jane" (by decide) rfl).trans (by decide),
    h.2.2.2 rfl⟩

/-- Claim C6: filterData is idempotent — filtering an already filtered
row sequence by the same constraints changes nothing. -/
theorem C6_filter_idempotent (rows : List Row) (qp : QueryParams) :
    filterData (filterData rows qp) qp = filterData rows qp := by
  unfold filterData
  induction rows with
  | nil => rfl
  | cons r rs ih =>
    cases hb : qp.all fun p => fieldTest r p.1 p.2 with
    | false => simp [List.filter_cons, hb, ih]
    | true => simp [List.filter_cons, hb, ih]

/-- Claim C7, counterexample: on the row sequence whose single row has
the number 7 in its "Name" cell, transformData raises a TypeError
(embedded as none) and produces no output row sequence at all, so it
does not return a sequence of the same length for every input. -/
theorem C7_counterexample :
    transformData [mkRow [("Name", JVal.num 7)]] = none :=
  rfl

/-- Claim C7, amended: whenever transformData returns a row sequence,
that sequence has exactly one output row per input row in the same
order — the length is preserved and the row at every index is the
transform of the input row at that index. -/
theorem C7_length_preserved (rows : List Row) (out : List Row)
    (h : transformData rows = some out) :
    out.length = rows.length ∧
    ∀ i : Nat, out[i]? = (rows[i]?.bind transformRow) := by
  induction rows generalizing out with
  | nil =>
    have hout : out = [] := (Option.some.inj h).symm
    subst hout
    exact ⟨rfl, fun i => rfl⟩
  | cons r rs ih =>
    unfold transformData mapJs at h
    rcases Option.bind_eq_some.mp h with ⟨r2, hr2, hb2⟩
    rcases Option.bind_eq_some.mp hb2 with ⟨rs2, hrs2, hb3⟩
    have hout : out = r2 :: rs2 := (Option.some.inj hb3).symm
    subst hout
    obtain ⟨ihl, ihg⟩ := ih rs2 hrs2
    refine ⟨by simp [ihl], ?_⟩
    intro i
    cases i with
    | zero => simp [hr2]
    | succ n => simpa using ihg n

/-- Claim C7, witness: a two-row sequence with safe cells transforms to
a sequence of length two. -/
theorem C7_witness :
    ∃ out, transformData [mkRow [("Name", JVal.str "Doe, Jane")], mkRow []]
        = some out ∧ out.length = 2 := by
  obtain ⟨out, hout⟩ :
      ∃ out, transformData [mkRow [("Name", JVal.str "Doe, Jane")], mkRow []]
        = some out := ⟨_, rfl⟩
  exact ⟨out, hout, (C7_length_preserved _ out hout).1.trans rfl⟩

/-- Claim C8: filtering by the empty constraint mapping keeps every row
unchanged and in order (vacuous conjunction). -/
theorem C8_empty_constraints_identity (rows : List Row) :
    filterData rows [] = rows := by
  induction rows with
  | nil => rfl
  | cons r rs ih =>
    have hstep : filterData (r :: rs) [] = r :: filterData rs [] := rfl
    rw [hstep, ih]

/-- Claim C9: a row lacking a constrained column fails strict equality
against every accepted value of that (non-reserved) constraint key, and
is therefore excluded from the filter result; no error is raised, the
filter being a total function in this embedding. -/
theorem C9_missing_column_excluded (rows : List Row) (qp : QueryParams)
    (row : Row) (f v : String) (hmem : (f, v) ∈ qp) (hf : f ≠ "tab")
    (habs : row f = JVal.undef) :
    (∀ a ∈ jsSplit v ",", jsStrictEq (row f) a = false) ∧
    row ∉ filterData rows qp := by
  have hje : ∀ a ∈ jsSplit v ",", jsStrictEq (row f) a = false := by
    intro a _
    rw [habs]
    rfl
  refine ⟨hje, ?_⟩
  intro hmemf
  have hpred := (List.mem_filter.mp hmemf).2
  have hall := List.all_eq_true.mp hpred (f, v) hmem
  have hb : (f != "tab") = true := bne_iff_ne.mpr hf
  rw [show fieldTest row f v
      = (jsSplit v ",").any (fun a => jsStrictEq (row f) a) by
    simp [fieldTest, hb]] at hall
  rcases List.any_eq_true.mp hall with ⟨a, ha, hsa⟩
  rw [hje a ha] at hsa
  exact Bool.false_ne_true hsa

/-- Claim C9, witness: the empty row is excluded by a Region constraint
it lacks. -/
theorem C9_witness :
    (∀ a ∈ jsSplit "East" ",", jsStrictEq (mkRow [] "Region") a = false) ∧
    mkRow [] ∉ filterData [mkRow []] [("Region", "East")] :=
  C9_missing_column_excluded [mkRow []] [("Region", "East")] (mkRow [])
    "Region" "East" (List.Mem.head _) (by decide) rfl

/-- Claim C10: whenever a row transforms without an exception, the
output cells "Client" and "Project" are the values freshly derived from
the "Primary Opp" cell (empty strings when not derivable); they depend
only on that cell, so any pre-existing "Client" or "Project" cell of
the input row is overwritten and never appears in the output. -/
theorem C10_derived_overwrite (row : Row) (out : Row)
    (hout : transformRow row = some out) :
    out "Client" = JVal.str (specDerive (cellStr (row "Primary Opp"))).1 ∧
    out "Project" = JVal.str (specDerive (cellStr (row "Primary Opp"))).2 := by
  obtain ⟨cp, nv, ov, hcp, hnv, hov, hfun⟩ := transformRow_some row out hout
  have hcps : cp = specDerive (cellStr (row "Primary Opp")) :=
    compositeSplit_some _ cp hcp
  subst hfun
  subst hcps
  constructor
  · simp
  · simp

/-- Claim C10, witness: a row carrying stale "Client" and "Project"
cells has them overwritten by the values derived from "Primary Opp". -/
theorem C10_witness :
    ∃ out, transformRow (mkRow
        [("Primary Opp", JVal.str "Ext. at Acme - Widget"),
         ("Client", JVal.str "OLD"), ("Project", JVal.str "OLDP")])
        = some out ∧
      out "Client" = JVal.str "Acme" ∧ out "Project" = JVal.str "Widget" := by
  obtain ⟨out, hout⟩ :
      ∃ out, transformRow (mkRow
        [("Primary Opp", JVal.str "Ext. at Acme - Widget"),
         ("Client", JVal.str "OLD"), ("Project", JVal.str "OLDP")])
        = some out := ⟨_, rfl⟩
  have h := C10_derived_overwrite _ out hout
  exact ⟨out, hout, h.1.trans (by decide), h.2.trans (by decide)⟩

end DataApi
